import Mathlib

/-!
Shallow embedding of the WebGPU SegFormer video-segmentation demo
(`VideoProcessor` component and its collaborators), together with proofs of
the specified properties of its sampling / caching / compositing pipeline.

Times and pixel coordinates are modelled as rationals (`ℚ`): the JavaScript
source computes with IEEE doubles, but every property below concerns the
exact arithmetic the code expresses, and the source itself guards the one
place where float accumulation matters with an explicit epsilon (`0.1`)
which we carry through verbatim.
-/

namespace SegDemo

/-- One labelled mask produced by the segmentation pipeline
(`RawImage`-style: width, height and a flat membership buffer). -/
structure Mask where
  width : ℕ
  height : ℕ
  data : List ℕ
deriving DecidableEq, Repr

/-- `SegmentedClass` from `types.ts`: label, confidence score, mask. -/
structure SegmentedClass where
  label : String
  score : ℚ
  mask : Mask
deriving DecidableEq, Repr

/-- `CachedFrame` from `types.ts`: a sampled timestamp with its
segmentation results. -/
structure CachedFrame where
  timestamp : ℚ
  odResult : List SegmentedClass
deriving DecidableEq, Repr

/-! ### Configuration constants (from `VideoProcessor`) -/

def CROP_PERCENT : ℚ := 20 / 100

def SEG_INPUT_SIZE : ℕ := 640

def ANALYSIS_INTERVAL : ℚ := 2 / 10

def MAX_DEMO_DURATION : ℚ := 15

/-- The epsilon used in the sampling-loop guard
`while (currentTime <= effectiveDuration + 0.1)`. -/
def EPSILON : ℚ := 1 / 10

/-! ### Nearest-frame lookup (`playbackLoop`, lines 269–283)

The source initialises `closestFrame = cache[0]`, `minDiff = Infinity` and
scans the whole cache with the strict test `diff < minDiff`, updating
`minDiff` to `|frame.timestamp - currentTime|` whenever it updates
`closestFrame`.  Since the first comparison against `Infinity` always
succeeds on a non-empty cache, this is the same as taking the head as the
initial best and scanning the tail, with the invariant
`minDiff = |best.timestamp - t|`; `scanNearest` is that loop. -/

def scanNearest (t : ℚ) (best : CachedFrame) : List CachedFrame → CachedFrame
  | [] => best
  | f :: rest =>
      if |f.timestamp - t| < |best.timestamp - t| then scanNearest t f rest
      else scanNearest t best rest

/-- The nearest-frame lookup: `undefined` (here `none`) on an empty cache,
otherwise the linear scan of `playbackLoop`. -/
def findNearest (cache : List CachedFrame) (t : ℚ) : Option CachedFrame :=
  match cache with
  | [] => none
  | f :: rest => some (scanNearest t f rest)

lemma scanNearest_mem (t : ℚ) (l : List CachedFrame) (best : CachedFrame) :
    scanNearest t best l ∈ best :: l := by
  induction l generalizing best with
  | nil => simp [scanNearest]
  | cons f rest ih =>
      by_cases h : |f.timestamp - t| < |best.timestamp - t|
      · simp only [scanNearest, if_pos h]
        exact List.mem_cons_of_mem best (ih f)
      · have := ih best
        simp only [scanNearest, if_neg h]
        rcases List.mem_cons.mp this with h1 | h1
        · exact List.mem_cons.mpr (Or.inl h1)
        · exact List.mem_cons.mpr (Or.inr (List.mem_cons.mpr (Or.inr h1)))

lemma scanNearest_min (t : ℚ) (l : List CachedFrame) (best : CachedFrame) :
    |(scanNearest t best l).timestamp - t| ≤ |best.timestamp - t| ∧
      ∀ g ∈ l, |(scanNearest t best l).timestamp - t| ≤ |g.timestamp - t| := by
  induction l generalizing best with
  | nil => exact ⟨le_refl _, by simp⟩
  | cons f rest ih =>
      by_cases h : |f.timestamp - t| < |best.timestamp - t|
      · obtain ⟨h1, h2⟩ := ih f
        simp only [scanNearest, if_pos h]
        refine ⟨h1.trans h.le, ?_⟩
        intro g hg
        rcases List.mem_cons.mp hg with rfl | hg
        · exact h1
        · exact h2 g hg
      · obtain ⟨h1, h2⟩ := ih best
        simp only [scanNearest, if_neg h]
        refine ⟨h1, ?_⟩
        intro g hg
        rcases List.mem_cons.mp hg with rfl | hg
        · exact h1.trans (not_lt.mp h)
        · exact h2 g hg

/-- First-encountered tie-breaking: the scan returns the element at the
FIRST index attaining the minimum distance — every strictly earlier entry
is at strictly larger distance. -/
lemma scanNearest_first (t : ℚ) (l : List CachedFrame) (best : CachedFrame) :
    ∃ i, (best :: l).get? i = some (scanNearest t best l) ∧
      ∀ g ∈ (best :: l).take i,
        |(scanNearest t best l).timestamp - t| < |g.timestamp - t| := by
  induction l generalizing best with
  | nil => exact ⟨0, rfl, by simp⟩
  | cons f rest ih =>
      by_cases h : |f.timestamp - t| < |best.timestamp - t|
      · obtain ⟨i, hget, hstrict⟩ := ih f
        have hle := (scanNearest_min t rest f).1
        refine ⟨i + 1, ?_, ?_⟩
        · simpa only [scanNearest, if_pos h, List.get?] using hget
        · intro g hg
          simp only [scanNearest, if_pos h] at hg ⊢
          rcases List.mem_cons.mp (by simpa [List.take] using hg) with rfl | hg'
          · exact lt_of_le_of_lt hle h
          · exact hstrict g hg'
      · obtain ⟨i, hget, hstrict⟩ := ih best
        cases i with
        | zero =>
            refine ⟨0, ?_, by simp⟩
            simp only [scanNearest, if_neg h]
            simpa using hget
        | succ j =>
            refine ⟨j + 2, ?_, ?_⟩
            · simpa only [scanNearest, if_neg h, List.get?] using hget
            · intro g hg
              simp only [scanNearest, if_neg h] at hg ⊢
              have hbest :
                  |(scanNearest t best rest).timestamp - t| < |best.timestamp - t| := by
                refine hstrict best ?_
                rw [List.take_succ_cons]
                exact List.mem_cons_self _ _
              rw [List.take_succ_cons, List.take_succ_cons] at hg
              rcases List.mem_cons.mp hg with rfl | hg'
              · exact hbest
              · rcases List.mem_cons.mp hg' with rfl | hg''
                · exact lt_of_lt_of_le hbest (not_lt.mp h)
                · refine hstrict g ?_
                  rw [List.take_succ_cons]
                  exact List.mem_cons_of_mem _ hg''

/-! ### Analysis sampling loop (`startAnalysis`, lines 198–249)

`startAnalysis` computes `effectiveDuration = min(video.duration,
MAX_DEMO_DURATION)` and runs
`while (currentTime <= effectiveDuration + 0.1) { ...; currentTime += ANALYSIS_INTERVAL }`
starting from `currentTime = 0`.  `sampleTimesFrom bound interval t` is the
list of loop timestamps from `t` on, with `bound = effectiveDuration + 0.1`. -/

def sampleTimesFrom (bound interval t : ℚ) : List ℚ :=
  if hi : 0 < interval then
    if ht : t ≤ bound then t :: sampleTimesFrom bound interval (t + interval)
    else []
  else []
termination_by (⌊(bound - t) / interval⌋ + 1).toNat
decreasing_by
  have hnum : (0 : ℚ) ≤ (bound - t) / interval :=
    div_nonneg (sub_nonneg.mpr ht) hi.le
  have hfl : (0 : ℤ) ≤ ⌊(bound - t) / interval⌋ := Int.floor_nonneg.mpr hnum
  have harg : (bound - (t + interval)) / interval = (bound - t) / interval - 1 := by
    field_simp
    ring
  rw [harg, show ((1 : ℚ) = ((1 : ℤ) : ℚ)) from rfl, Int.floor_sub_int]
  omega

/-- `effectiveDuration = Math.min(video.duration, MAX_DEMO_DURATION)`. -/
def effectiveDuration (duration : ℚ) : ℚ := min duration MAX_DEMO_DURATION

/-- The exact sequence of timestamps sampled by `startAnalysis` for a video
of the given duration. -/
def analysisTimestamps (duration : ℚ) : List ℚ :=
  sampleTimesFrom (effectiveDuration duration + EPSILON) ANALYSIS_INTERVAL 0

/-- Closed form of the sampling loop: from start time `t` it visits
`t, t + i, t + 2i, …` for exactly `(⌊(bound - t)/i⌋ + 1)⁺` steps. -/
lemma sampleTimesFrom_eq_map_range (bound interval : ℚ) (hi : 0 < interval) :
    ∀ (N : ℕ) (t : ℚ), (⌊(bound - t) / interval⌋ + 1).toNat = N →
      sampleTimesFrom bound interval t =
        (List.range N).map (fun k : ℕ => t + (k : ℚ) * interval) := by
  intro N
  induction N with
  | zero =>
      intro t hN
      have hneg : ⌊(bound - t) / interval⌋ + 1 ≤ 0 := by omega
      have hlt : (bound - t) / interval < 0 := by
        by_contra hc
        have := Int.floor_nonneg.mpr (not_lt.mp hc)
        omega
      have ht : ¬ t ≤ bound := by
        intro hle
        exact absurd (div_nonneg (sub_nonneg.mpr hle) hi.le) (not_le.mpr hlt)
      rw [sampleTimesFrom, dif_pos hi, dif_neg ht]
      simp
  | succ N ihN =>
      intro t hN
      have hfl : ⌊(bound - t) / interval⌋ = N := by omega
      have hnum : (0 : ℚ) ≤ (bound - t) / interval := by
        have : (0 : ℤ) ≤ ⌊(bound - t) / interval⌋ := by omega
        exact le_trans (by exact_mod_cast this) (Int.floor_le _)
      have ht : t ≤ bound := by
        have : (0 : ℚ) ≤ bound - t := by
          by_contra hc
          have hlt : (bound - t) / interval < 0 :=
            div_neg_of_neg_of_pos (not_le.mp hc) hi
          exact absurd hnum (not_le.mpr hlt)
        linarith
      have harg : (bound - (t + interval)) / interval = (bound - t) / interval - 1 := by
        field_simp
        ring
      have hnext : (⌊(bound - (t + interval)) / interval⌋ + 1).toNat = N := by
        rw [harg, show ((1 : ℚ) = ((1 : ℤ) : ℚ)) from rfl, Int.floor_sub_int]
        omega
      rw [sampleTimesFrom, dif_pos hi, dif_pos ht, ihN (t + interval) hnext,
        List.range_succ_eq_map]
      simp only [List.map_cons, List.map_map]
      refine congrArg₂ _ (by ring) (List.map_congr_left ?_)
      intro k _
      simp only [Function.comp_apply]
      push_cast
      ring

/-- Membership characterisation of the sampling loop: starting from 0 with a
positive interval, the sampled times are exactly the multiples `k·interval`
that satisfy the loop guard. -/
lemma mem_sampleTimesFrom_zero (bound interval : ℚ) (hi : 0 < interval) (s : ℚ) :
    s ∈ sampleTimesFrom bound interval 0 ↔
      ∃ k : ℕ, s = (k : ℚ) * interval ∧ s ≤ bound := by
  rw [sampleTimesFrom_eq_map_range bound interval hi _ 0 rfl]
  simp only [List.mem_map, List.mem_range, zero_add]
  constructor
  · rintro ⟨k, hk, rfl⟩
    refine ⟨k, rfl, ?_⟩
    have hk' : (k : ℤ) ≤ ⌊(bound - 0) / interval⌋ := by omega
    have h2 : ((k : ℤ) : ℚ) ≤ (bound - 0) / interval := Int.le_floor.mp hk'
    rw [le_div_iff₀ hi] at h2
    push_cast at h2
    linarith
  · rintro ⟨k, rfl, hle⟩
    refine ⟨k, ?_, rfl⟩
    have h2 : ((k : ℤ) : ℚ) ≤ (bound - 0) / interval := by
      rw [le_div_iff₀ hi]
      push_cast
      linarith
    have h3 : (k : ℤ) ≤ ⌊(bound - 0) / interval⌋ := Int.le_floor.mpr h2
    omega

/-! ### The cache built by the analysis loop (`startAnalysis`, lines 224–249)

Each iteration captures the frame at `currentTime`, calls
`objectDetectionService.predict` inside `try { … push({timestamp, odResult}) }
catch { log }`, and advances `currentTime += ANALYSIS_INTERVAL` regardless of
success.  The inference collaborator is modelled as a function
`predict : ℚ → Option (List SegmentedClass)` from the sampled timestamp to
`some results` (success) or `none` (the call threw). -/

def analysisLoop (predict : ℚ → Option (List SegmentedClass))
    (bound interval t : ℚ) : List CachedFrame :=
  if hi : 0 < interval then
    if ht : t ≤ bound then
      (match predict t with
        | some res => [{ timestamp := t, odResult := res }]
        | none => []) ++ analysisLoop predict bound interval (t + interval)
    else []
  else []
termination_by (⌊(bound - t) / interval⌋ + 1).toNat
decreasing_by
  have hnum : (0 : ℚ) ≤ (bound - t) / interval :=
    div_nonneg (sub_nonneg.mpr ht) hi.le
  have hfl : (0 : ℤ) ≤ ⌊(bound - t) / interval⌋ := Int.floor_nonneg.mpr hnum
  have harg : (bound - (t + interval)) / interval = (bound - t) / interval - 1 := by
    field_simp
    ring
  rw [harg, show ((1 : ℚ) = ((1 : ℤ) : ℚ)) from rfl, Int.floor_sub_int]
  omega

/-- The cache produced by a full analysis pass over a video of the given
duration. -/
def analysisCache (predict : ℚ → Option (List SegmentedClass))
    (duration : ℚ) : List CachedFrame :=
  analysisLoop predict (effectiveDuration duration + EPSILON) ANALYSIS_INTERVAL 0

/-- The analysis loop visits every sampled timestamp whether or not the
inference call at the previous timestamps succeeded: the cache is the
sampled-timestamp list filtered through `predict`. -/
lemma analysisLoop_eq_filterMap (predict : ℚ → Option (List SegmentedClass))
    (bound interval : ℚ) (hi : 0 < interval) :
    ∀ (N : ℕ) (t : ℚ), (⌊(bound - t) / interval⌋ + 1).toNat = N →
      analysisLoop predict bound interval t =
        (sampleTimesFrom bound interval t).filterMap
          (fun s => (predict s).map (fun res => { timestamp := s, odResult := res })) := by
  intro N
  induction N with
  | zero =>
      intro t hN
      have hlt : (bound - t) / interval < 0 := by
        by_contra hc
        have := Int.floor_nonneg.mpr (not_lt.mp hc)
        omega
      have ht : ¬ t ≤ bound := by
        intro hle
        exact absurd (div_nonneg (sub_nonneg.mpr hle) hi.le) (not_le.mpr hlt)
      rw [analysisLoop, dif_pos hi, dif_neg ht, sampleTimesFrom, dif_pos hi, dif_neg ht]
      simp
  | succ N ihN =>
      intro t hN
      have hfl : ⌊(bound - t) / interval⌋ = N := by omega
      have hnum : (0 : ℚ) ≤ (bound - t) / interval := by
        have : (0 : ℤ) ≤ ⌊(bound - t) / interval⌋ := by omega
        exact le_trans (by exact_mod_cast this) (Int.floor_le _)
      have ht : t ≤ bound := by
        have : (0 : ℚ) ≤ bound - t := by
          by_contra hc
          have hlt : (bound - t) / interval < 0 :=
            div_neg_of_neg_of_pos (not_le.mp hc) hi
          exact absurd hnum (not_le.mpr hlt)
        linarith
      have harg : (bound - (t + interval)) / interval = (bound - t) / interval - 1 := by
        field_simp
        ring
      have hnext : (⌊(bound - (t + interval)) / interval⌋ + 1).toNat = N := by
        rw [harg, show ((1 : ℚ) = ((1 : ℤ) : ℚ)) from rfl, Int.floor_sub_int]
        omega
      rw [analysisLoop, dif_pos hi, dif_pos ht, sampleTimesFrom, dif_pos hi, dif_pos ht,
        ihN (t + interval) hnext]
      cases hp : predict t with
      | none => simp [List.filterMap_cons, hp]
      | some res => simp [List.filterMap_cons, hp]

/-- A cache entry for timestamp `s` exists iff `s` was sampled and the
inference call at `s` succeeded, and it then carries exactly that call's
results. -/
lemma mem_analysisCache (predict : ℚ → Option (List SegmentedClass))
    (duration : ℚ) (e : CachedFrame) :
    e ∈ analysisCache predict duration ↔
      e.timestamp ∈ analysisTimestamps duration ∧
        predict e.timestamp = some e.odResult := by
  have hi : (0 : ℚ) < ANALYSIS_INTERVAL := by norm_num [ANALYSIS_INTERVAL]
  rw [analysisCache,
    analysisLoop_eq_filterMap predict (effectiveDuration duration + EPSILON)
      ANALYSIS_INTERVAL hi _ 0 rfl]
  rw [List.mem_filterMap]
  constructor
  · rintro ⟨s, hs, he⟩
    rcases Option.map_eq_some'.mp he with ⟨res, hp, hres⟩
    subst hres
    exact ⟨hs, hp⟩
  · rintro ⟨hs, hp⟩
    exact ⟨e.timestamp, hs, by rw [hp]; rfl⟩

/-! ### Geometry mapper (`renderSegmentationOverlay`, lines 137–162)

The letterbox computation is inlined in `renderSegmentationOverlay`; the
spec names it `computeDisplayRect`.  The source first short-circuits on a
zero video dimension (`if (!videoW || !videoH) return;`) and only then
computes the ratios, so `computeDisplayRect` is only reached with nonzero
video dimensions. -/

structure DisplayRect where
  offsetX : ℚ
  offsetY : ℚ
  displayedW : ℚ
  displayedH : ℚ
deriving DecidableEq, Repr

def computeDisplayRect (containerW containerH videoW videoH : ℚ) : DisplayRect :=
  let videoRatio := videoW / videoH
  let containerRatio := containerW / containerH
  if containerRatio > videoRatio then
    { displayedH := containerH
      displayedW := containerH * videoRatio
      offsetX := (containerW - containerH * videoRatio) / 2
      offsetY := 0 }
  else
    { displayedW := containerW
      displayedH := containerW / videoRatio
      offsetX := 0
      offsetY := (containerH - containerW / videoRatio) / 2 }

/-- The region `drawMaskToContext` is invoked with, per lines 158–162 and
181: full displayed width at `offsetX`, and the crop-adjusted vertical
band. -/
structure OverlayPlacement where
  x : ℚ
  y : ℚ
  w : ℚ
  h : ℚ
deriving DecidableEq, Repr

/-- The overlay target region computed by `renderSegmentationOverlay`:
`none` when a video dimension is zero (the early `return`), otherwise the
crop-adjusted band of the letterboxed display rectangle. -/
def overlayTarget (containerW containerH videoW videoH cropPercent : ℚ) :
    Option OverlayPlacement :=
  if videoW = 0 ∨ videoH = 0 then none
  else
    let rect := computeDisplayRect containerW containerH videoW videoH
    some { x := rect.offsetX
           y := rect.offsetY + rect.displayedH * cropPercent
           w := rect.displayedW
           h := rect.displayedH * (1 - cropPercent) }

/-! ### Mask compositor (`drawMaskToContext`, lines 79–117) -/

/-- One RGBA pixel of the helper canvas's `ImageData`. -/
structure RGBA where
  r : ℕ
  g : ℕ
  b : ℕ
  a : ℕ
deriving DecidableEq, Repr

def transparent : RGBA := ⟨0, 0, 0, 0⟩

/-- The pixel loop of `drawMaskToContext` (lines 96–111): `createImageData`
yields an all-zero (fully transparent) buffer, and the loop writes the
solid color at index `i` exactly when `maskData[i] > 0`; this is the same
as mapping each membership value independently. -/
def stencilPixels (maskData : List ℕ) (color : RGBA) : List RGBA :=
  maskData.map (fun v => if 0 < v then color else transparent)

/-- The helper-canvas resize logic (lines 88–92): resize (a reallocation of
the canvas backing store) happens exactly when either dimension differs;
returns the new dimensions and whether a resize happened. -/
def updateHelperSize (helperW helperH maskW maskH : ℕ) : ℕ × ℕ × Bool :=
  if helperW ≠ maskW ∨ helperH ≠ maskH then (maskW, maskH, true)
  else (helperW, helperH, false)

/-! ### Label classification (`renderSegmentationOverlay`, lines 164–187) -/

def VEHICLE_LABELS : List String := ["car", "truck", "bus", "motorcycle", "bicycle"]

/-- JS `String.prototype.toLowerCase` as used on the (ASCII) class labels:
character-wise lower-casing.  (Stated over the character list so that it
is kernel-computable; it agrees with `String.toLower`, whose `mapAux`
recursion does not reduce definitionally.) -/
def toLowerCase (s : String) : String := ⟨s.data.map Char.toLower⟩

/-- The per-result color mapping: lower-case the label, then match.
Returns the UI category name added to `foundClasses` together with the
RGBA color passed to `drawMaskToContext`, or `none` when no overlay is
drawn for this result. -/
def classifyLabel (label : String) : Option (String × List ℕ) :=
  let l := toLowerCase label
  if l = "traffic light" ∨ l = "traffic_light" then
    some ("TRAFFIC LIGHT", [255, 230, 0, 200])
  else if l ∈ VEHICLE_LABELS then
    some ("VEHICLE", [0, 255, 100, 160])
  else none

/-- The `foundClasses` set accumulated over one tick's results (a JS `Set`
preserves insertion order and deduplicates). -/
def foundClasses (results : List SegmentedClass) : List String :=
  results.foldl
    (fun acc item =>
      match classifyLabel item.label with
      | some (cat, _) => if cat ∈ acc then acc else acc ++ [cat]
      | none => acc)
    []

/-- The masks actually drawn in one tick, with their colors: results whose
label maps to a category. -/
def drawnOverlays (results : List SegmentedClass) : List (Mask × List ℕ) :=
  results.filterMap (fun item => (classifyLabel item.label).map (fun p => (item.mask, p.2)))

/-! ### Playback tick (`playbackLoop`, lines 257–288) -/

/-- What one invocation of `playbackLoop` does, in order: bail out when
paused/ended; at or past the duration cap, seek to 0 and re-schedule
without touching the cache; otherwise run the nearest-frame lookup and
render when it produced a frame (`closestFrame.odResult` is an array and
arrays are truthy, so rendering happens exactly when a frame was found). -/
structure TickResult where
  stopped : Bool
  seekTo : Option ℚ
  queried : Bool
  rendered : Option CachedFrame
  rescheduled : Bool
deriving DecidableEq, Repr

def playbackTick (paused ended : Bool) (currentTime : ℚ)
    (cache : List CachedFrame) : TickResult :=
  if paused || ended then
    { stopped := true, seekTo := none, queried := false, rendered := none,
      rescheduled := false }
  else if MAX_DEMO_DURATION ≤ currentTime then
    { stopped := false, seekTo := some 0, queried := false, rendered := none,
      rescheduled := true }
  else
    { stopped := false, seekTo := none, queried := true,
      rendered := findNearest cache currentTime, rescheduled := true }

/-! ### Progress reporting (`startAnalysis`, lines 200 and 244–245) -/

/-- `steps = Math.ceil(effectiveDuration / ANALYSIS_INTERVAL) + 1`. -/
def totalSteps (effDur : ℚ) : ℤ := ⌈effDur / ANALYSIS_INTERVAL⌉ + 1

/-- `setProgress(Math.min(100, Math.round((frameCount / steps) * 100)))`
after `frameCount` completed sampling steps.  `Math.round` rounds half
away from zero on positives, as does Mathlib's `round`. -/
def progressAfter (effDur : ℚ) (frameCount : ℕ) : ℤ :=
  min 100 (round (((frameCount : ℚ) / (totalSteps effDur : ℚ)) * 100))

/-! ### Analysis completion and auto-play (`startAnalysis` 250–255,
`togglePlay` 290–300) -/

inductive AnalysisStatus where
  | idle
  | analyzing
  | complete
deriving DecidableEq, Repr

/-- The controller state touched by the end-of-analysis sequence. -/
structure ControllerState where
  analysisStatus : AnalysisStatus
  videoTime : ℚ
  isPlaying : Bool
  loopScheduled : Bool
deriving DecidableEq, Repr

/-- `togglePlay`: pause + cancel the scheduled tick when playing; otherwise
call `video.play()`, and on resolution mark playing and start
`playbackLoop`.  `playResolves` models whether the `play()` promise
resolves (rejection leaves the state unchanged apart from the logged
error). -/
def togglePlay (playResolves : Bool) (s : ControllerState) : ControllerState :=
  if s.isPlaying then
    { s with isPlaying := false, loopScheduled := false }
  else if playResolves then
    { s with isPlaying := true, loopScheduled := true }
  else s

/-- Lines 250–255 of `startAnalysis`: after the sampling loop,
`setAnalysisStatus('complete')`, `video.currentTime = 0`, then
`togglePlay()`. -/
def finishAnalysis (playResolves : Bool) (s : ControllerState) : ControllerState :=
  togglePlay playResolves { s with analysisStatus := .complete, videoTime := 0 }

/-! ## Claim theorems -/

/-- C1: on a playback tick reading query time `t`, the nearest-frame lookup
selects no frame (and nothing is rendered) on an empty cache; on a
non-empty cache it selects an entry of minimal `|entry.timestamp − t|`,
and that entry sits at the first index attaining the minimum (every
earlier entry is strictly farther), so ties go to the first-encountered
entry; with entries at exactly t = 0 and t = 1.0 only, the query t = 0.6
selects the t = 1.0 entry. -/
theorem C1_nearest_frame_lookup (cache : List CachedFrame) (t : ℚ) :
    (cache = [] → findNearest cache t = none ∧
      ∀ paused ended, (playbackTick paused ended t cache).rendered = none) ∧
    (cache ≠ [] →
      ∃ f, findNearest cache t = some f ∧ f ∈ cache ∧
        (∀ g ∈ cache, |f.timestamp - t| ≤ |g.timestamp - t|) ∧
        ∃ i, cache.get? i = some f ∧
          ∀ g ∈ cache.take i, |f.timestamp - t| < |g.timestamp - t|) ∧
    findNearest [⟨0, []⟩, ⟨1, []⟩] (6/10) = some ⟨1, []⟩ := by
  refine ⟨?_, ?_, ?_⟩
  · rintro rfl
    refine ⟨rfl, ?_⟩
    intro paused ended
    rw [playbackTick]
    split_ifs <;> rfl
  · intro hne
    match cache with
    | [] => exact absurd rfl hne
    | f0 :: rest =>
        refine ⟨scanNearest t f0 rest, rfl, scanNearest_mem t rest f0, ?_, ?_⟩
        · intro g hg
          rcases List.mem_cons.mp hg with rfl | hg'
          · exact (scanNearest_min t rest g).1
          · exact (scanNearest_min t rest f0).2 g hg'
        · exact scanNearest_first t rest f0
  · have hcond : |(1 : ℚ) - 6/10| < |(0 : ℚ) - 6/10| := by
      rw [abs_of_nonneg (by norm_num), abs_of_nonpos (by norm_num)]
      norm_num
    simp only [findNearest, scanNearest]
    rw [if_pos hcond]

/-- C1 witness: the theorem at the empty cache and at the two-entry
scenario cache. -/
theorem C1_nearest_frame_lookup_witness :
    (findNearest [] (6/10) = none ∧
      ∀ paused ended, (playbackTick paused ended (6/10) []).rendered = none) ∧
    findNearest [⟨0, []⟩, ⟨1, []⟩] (6/10) = some ⟨1, []⟩ :=
  ⟨(C1_nearest_frame_lookup [] (6/10)).1 rfl,
   (C1_nearest_frame_lookup [] (6/10)).2.2⟩

/-- C2: the analysis scheduler samples exactly the times `k·interval` with
`k·interval ≤ effectiveDuration + ε` (ε = 0.1); for a 1.0 s video under
the 15 s cap it performs exactly the 6 steps 0, 0.2, 0.4, 0.6, 0.8, 1.0;
for effectiveDuration = 0 it performs exactly one step, at t = 0. -/
theorem C2_sampling_schedule :
    (∀ duration s : ℚ,
      s ∈ analysisTimestamps duration ↔
        ∃ k : ℕ, s = (k : ℚ) * ANALYSIS_INTERVAL ∧
          s ≤ effectiveDuration duration + EPSILON) ∧
    analysisTimestamps 1 = [0, 2/10, 4/10, 6/10, 8/10, 1] ∧
    (analysisTimestamps 1).length = 6 ∧
    analysisTimestamps 0 = [0] := by
  have hi : (0 : ℚ) < ANALYSIS_INTERVAL := by norm_num [ANALYSIS_INTERVAL]
  have hc6 : (⌊(effectiveDuration 1 + EPSILON - 0) / ANALYSIS_INTERVAL⌋ + 1).toNat = 6 := by
    norm_num [effectiveDuration, EPSILON, ANALYSIS_INTERVAL, MAX_DEMO_DURATION]
    omega
  have hc1 : (⌊(effectiveDuration 0 + EPSILON - 0) / ANALYSIS_INTERVAL⌋ + 1).toNat = 1 := by
    norm_num [effectiveDuration, EPSILON, ANALYSIS_INTERVAL, MAX_DEMO_DURATION]
  have h1 : analysisTimestamps 1 = [0, 2/10, 4/10, 6/10, 8/10, 1] := by
    rw [analysisTimestamps, sampleTimesFrom_eq_map_range _ _ hi 6 0 hc6,
      show List.range 6 = [0, 1, 2, 3, 4, 5] from rfl]
    norm_num [ANALYSIS_INTERVAL]
  have h0 : analysisTimestamps 0 = [0] := by
    rw [analysisTimestamps, sampleTimesFrom_eq_map_range _ _ hi 1 0 hc1,
      show List.range 1 = [0] from rfl]
    norm_num
  exact ⟨fun duration s => mem_sampleTimesFrom_zero _ _ hi s, h1, by rw [h1]; rfl, h0⟩

/-- C2 witness: the membership characterisation evaluated at duration 1 and
sample time 0.6, plus the two concrete schedules. -/
theorem C2_sampling_schedule_witness :
    ((6 : ℚ)/10 ∈ analysisTimestamps 1 ↔
      ∃ k : ℕ, (6 : ℚ)/10 = (k : ℚ) * ANALYSIS_INTERVAL ∧
        (6 : ℚ)/10 ≤ effectiveDuration 1 + EPSILON) ∧
    analysisTimestamps 1 = [0, 2/10, 4/10, 6/10, 8/10, 1] ∧
    analysisTimestamps 0 = [0] :=
  ⟨C2_sampling_schedule.1 1 (6/10), C2_sampling_schedule.2.1,
    C2_sampling_schedule.2.2.2⟩

/-- C3: with nonzero container and video dimensions, the display rectangle
is contained in the container, preserves the video's aspect ratio exactly,
is height-constrained and horizontally centered when the container is
relatively wider than the video and width-constrained and vertically
centered otherwise; the overlay band starts at
`offsetY + displayedH·cropPercent` with height `displayedH·(1 − cropPercent)`
and the full displayed horizontal extent; a zero video dimension renders
nothing. -/
theorem C3_letterbox_geometry (containerW containerH videoW videoH cropPercent : ℚ)
    (hcw : 0 < containerW) (hch : 0 < containerH)
    (hvw : 0 < videoW) (hvh : 0 < videoH) :
    (0 ≤ (computeDisplayRect containerW containerH videoW videoH).offsetX ∧
      (computeDisplayRect containerW containerH videoW videoH).offsetX +
        (computeDisplayRect containerW containerH videoW videoH).displayedW ≤ containerW ∧
      0 ≤ (computeDisplayRect containerW containerH videoW videoH).offsetY ∧
      (computeDisplayRect containerW containerH videoW videoH).offsetY +
        (computeDisplayRect containerW containerH videoW videoH).displayedH ≤ containerH ∧
      0 < (computeDisplayRect containerW containerH videoW videoH).displayedW ∧
      0 < (computeDisplayRect containerW containerH videoW videoH).displayedH) ∧
    (computeDisplayRect containerW containerH videoW videoH).displayedW * videoH =
      (computeDisplayRect containerW containerH videoW videoH).displayedH * videoW ∧
    (videoW / videoH < containerW / containerH →
      (computeDisplayRect containerW containerH videoW videoH).displayedH = containerH ∧
      (computeDisplayRect containerW containerH videoW videoH).offsetY = 0 ∧
      (computeDisplayRect containerW containerH videoW videoH).offsetX =
        (containerW - (computeDisplayRect containerW containerH videoW videoH).displayedW) / 2) ∧
    (¬ videoW / videoH < containerW / containerH →
      (computeDisplayRect containerW containerH videoW videoH).displayedW = containerW ∧
      (computeDisplayRect containerW containerH videoW videoH).offsetX = 0 ∧
      (computeDisplayRect containerW containerH videoW videoH).offsetY =
        (containerH - (computeDisplayRect containerW containerH videoW videoH).displayedH) / 2) ∧
    overlayTarget containerW containerH videoW videoH cropPercent =
      some { x := (computeDisplayRect containerW containerH videoW videoH).offsetX
             y := (computeDisplayRect containerW containerH videoW videoH).offsetY +
                  (computeDisplayRect containerW containerH videoW videoH).displayedH * cropPercent
             w := (computeDisplayRect containerW containerH videoW videoH).displayedW
             h := (computeDisplayRect containerW containerH videoW videoH).displayedH *
                  (1 - cropPercent) } ∧
    (∀ cw ch vh p : ℚ, overlayTarget cw ch 0 vh p = none) ∧
    (∀ cw ch vw p : ℚ, overlayTarget cw ch vw 0 p = none) := by
  have hvr : 0 < videoW / videoH := div_pos hvw hvh
  refine ⟨?_, ?_, ?_, ?_, ?_, ?_, ?_⟩
  · rw [computeDisplayRect]
    split_ifs with hr
    · have h1 : videoW * containerH < containerW * videoH := (div_lt_div_iff₀ hvh hch).mp hr
      have hdw : containerH * (videoW / videoH) ≤ containerW := by
        rw [mul_div_assoc', div_le_iff₀ hvh]
        nlinarith
      exact ⟨by dsimp; linarith, by dsimp; linarith, by norm_num, by dsimp; norm_num,
        by dsimp; exact mul_pos hch hvr, by dsimp; exact hch⟩
    · have h1 : containerW * videoH ≤ videoW * containerH := by
        have := (div_le_div_iff₀ hch hvh).mp (not_lt.mp hr)
        linarith
      have hdh : containerW / (videoW / videoH) ≤ containerH := by
        rw [div_div_eq_mul_div, div_le_iff₀ hvw]
        nlinarith
      exact ⟨by norm_num, by dsimp; norm_num, by dsimp; linarith, by dsimp; linarith,
        by dsimp; exact hcw, by dsimp; exact div_pos hcw hvr⟩
  · rw [computeDisplayRect]
    split_ifs with hr
    · dsimp
      field_simp
      try ring
    · dsimp
      field_simp
      try ring
  · intro hr
    rw [computeDisplayRect, if_pos hr]
    all_goals exact ⟨rfl, rfl, rfl⟩
  · intro hr
    rw [computeDisplayRect, if_neg hr]
    all_goals exact ⟨rfl, rfl, rfl⟩
  · rw [overlayTarget, if_neg (by push_neg; exact ⟨hvw.ne', hvh.ne'⟩)]
  · intro cw ch vh p
    rw [overlayTarget, if_pos (Or.inl rfl)]
  · intro cw ch vw p
    rw [overlayTarget, if_pos (Or.inr rfl)]

/-- C3 witness: the theorem at a 16:9 container with a 4:3 video and the
configured crop fraction. -/
theorem C3_letterbox_geometry_witness :
    (computeDisplayRect 16 9 4 3).displayedW * 3 =
      (computeDisplayRect 16 9 4 3).displayedH * 4 ∧
    0 ≤ (computeDisplayRect 16 9 4 3).offsetX :=
  ⟨(C3_letterbox_geometry 16 9 4 3 CROP_PERCENT (by norm_num) (by norm_num)
      (by norm_num) (by norm_num)).2.1,
   (C3_letterbox_geometry 16 9 4 3 CROP_PERCENT (by norm_num) (by norm_num)
      (by norm_num) (by norm_num)).1.1⟩

/-- C4: the mask compositor writes the given solid RGBA color at pixel `i`
exactly when the mask's membership value at `i` is nonzero (the written
channels do not depend on the raw value), leaves zero-membership pixels
fully transparent, and resizes the scratch raster exactly when the mask's
dimensions differ from its current dimensions. -/
theorem C4_mask_stencil (maskData : List ℕ) (color : RGBA) :
    (stencilPixels maskData color).length = maskData.length ∧
    (∀ i v, maskData.get? i = some v → 0 < v →
      (stencilPixels maskData color).get? i = some color) ∧
    (∀ i v, maskData.get? i = some v → v = 0 →
      (stencilPixels maskData color).get? i = some transparent) ∧
    (∀ helperW helperH maskW maskH : ℕ,
      (updateHelperSize helperW helperH maskW maskH).1 = maskW ∧
      (updateHelperSize helperW helperH maskW maskH).2.1 = maskH ∧
      ((updateHelperSize helperW helperH maskW maskH).2.2 = true ↔
        ¬ (helperW = maskW ∧ helperH = maskH))) := by
  refine ⟨List.length_map _ _, ?_, ?_, ?_⟩
  · intro i v hv hpos
    rw [stencilPixels, List.get?_map, hv, Option.map_some', if_pos hpos]
  · intro i v hv hzero
    subst hzero
    rw [stencilPixels, List.get?_map, hv, Option.map_some', if_neg (lt_irrefl 0)]
  · intro helperW helperH maskW maskH
    rw [updateHelperSize]
    split_ifs with h
    · refine ⟨rfl, rfl, ?_⟩
      simp only [true_iff]
      tauto
    · push_neg at h
      refine ⟨h.1, h.2, ?_⟩
      simp only [false_iff, not_not]
      exact ⟨h.1, h.2⟩

/-- C4 witness: the theorem evaluated on a 2-pixel mask with values 255 and
0, and on matching/mismatching scratch dimensions. -/
theorem C4_mask_stencil_witness :
    (stencilPixels [255, 0] ⟨0, 255, 100, 160⟩).get? 0 = some ⟨0, 255, 100, 160⟩ ∧
    (stencilPixels [255, 0] ⟨0, 255, 100, 160⟩).get? 1 = some transparent ∧
    ((updateHelperSize 640 640 64 48).2.2 = true ↔ ¬ (640 = 64 ∧ 640 = 48)) :=
  ⟨(C4_mask_stencil [255, 0] ⟨0, 255, 100, 160⟩).2.1 0 255 rfl (by norm_num),
   (C4_mask_stencil [255, 0] ⟨0, 255, 100, 160⟩).2.2.1 1 0 rfl rfl,
   ((C4_mask_stencil [255, 0] ⟨0, 255, 100, 160⟩).2.2.2 640 640 64 48).2.2⟩

/-- The accumulator-generalised membership property of the `foundClasses`
fold. -/
lemma foundClasses_foldl_mem (results : List SegmentedClass) :
    ∀ (acc : List String) (cat : String),
      cat ∈ results.foldl
          (fun acc item =>
            match classifyLabel item.label with
            | some (c, _) => if c ∈ acc then acc else acc ++ [c]
            | none => acc)
          acc ↔
        cat ∈ acc ∨ ∃ item ∈ results, ∃ color, classifyLabel item.label = some (cat, color) := by
  induction results with
  | nil => simp
  | cons item rest ih =>
      intro acc cat
      rw [List.foldl_cons]
      cases hcl : classifyLabel item.label with
      | none =>
          rw [ih]
          constructor
          · rintro (h | h)
            · exact Or.inl h
            · exact Or.inr (by
                obtain ⟨it, hit, c, hc⟩ := h
                exact ⟨it, List.mem_cons_of_mem _ hit, c, hc⟩)
          · rintro (h | ⟨it, hit, c, hc⟩)
            · exact Or.inl h
            · rcases List.mem_cons.mp hit with rfl | hit'
              · rw [hcl] at hc
                exact absurd hc (by simp)
              · exact Or.inr ⟨it, hit', c, hc⟩
      | some p =>
          obtain ⟨c, color⟩ := p
          rw [ih]
          have hacc : ∀ x : String,
              x ∈ (if c ∈ acc then acc else acc ++ [c]) ↔ x ∈ acc ∨ x = c := by
            intro x
            split_ifs with hmem
            · constructor
              · exact Or.inl
              · rintro (h | rfl)
                · exact h
                · exact hmem
            · simp [List.mem_append]
          rw [hacc]
          constructor
          · rintro ((h | rfl) | ⟨it, hit, c', hc⟩)
            · exact Or.inl h
            · exact Or.inr ⟨item, List.mem_cons_self _ _, color, hcl⟩
            · exact Or.inr ⟨it, List.mem_cons_of_mem _ hit, c', hc⟩
          · rintro (h | ⟨it, hit, c', hc⟩)
            · exact Or.inl (Or.inl h)
            · rcases List.mem_cons.mp hit with rfl | hit'
              · rw [hcl] at hc
                have : c = cat := by
                  have := Option.some.inj hc
                  exact congrArg Prod.fst this
                exact Or.inl (Or.inr this.symm)
              · exact Or.inr ⟨it, hit', c', hc⟩

/-- C5: label classification is case-insensitive; labels lowering to
`traffic light`/`traffic_light` map to TRAFFIC LIGHT with color
(255,230,0,200); labels lowering to one of the five vehicle labels map to
VEHICLE with color (0,255,100,160); any other label produces no overlay
and contributes nothing to the active-category set; in particular
`"Traffic Light"` classifies as TRAFFIC LIGHT and `"pedestrian"` yields
nothing. -/
theorem C5_label_classification :
    (∀ label : String,
      toLowerCase label = "traffic light" ∨ toLowerCase label = "traffic_light" →
        classifyLabel label = some ("TRAFFIC LIGHT", [255, 230, 0, 200])) ∧
    (∀ label : String, toLowerCase label ∈ VEHICLE_LABELS →
        classifyLabel label = some ("VEHICLE", [0, 255, 100, 160])) ∧
    (∀ label : String,
      toLowerCase label ≠ "traffic light" → toLowerCase label ≠ "traffic_light" →
      toLowerCase label ∉ VEHICLE_LABELS → classifyLabel label = none) ∧
    classifyLabel "Traffic Light" = some ("TRAFFIC LIGHT", [255, 230, 0, 200]) ∧
    classifyLabel "pedestrian" = none ∧
    (∀ (results : List SegmentedClass) (cat : String),
      cat ∈ foundClasses results ↔
        ∃ item ∈ results, ∃ color, classifyLabel item.label = some (cat, color)) ∧
    (∀ (m : Mask) (s : ℚ),
      drawnOverlays [⟨"pedestrian", s, m⟩] = [] ∧
      foundClasses [⟨"pedestrian", s, m⟩] = []) := by
  have hveh : ∀ l : String, l ∈ VEHICLE_LABELS →
      ¬ (l = "traffic light" ∨ l = "traffic_light") := by
    intro l hl
    rw [VEHICLE_LABELS] at hl
    fin_cases hl <;> decide
  have hped : classifyLabel "pedestrian" = none := by decide
  refine ⟨?_, ?_, ?_, by decide, hped, ?_, ?_⟩
  · intro label hl
    rw [classifyLabel]
    exact if_pos hl
  · intro label hl
    rw [classifyLabel, if_neg (hveh _ hl)]
    exact if_pos hl
  · intro label h1 h2 h3
    rw [classifyLabel, if_neg (not_or.mpr ⟨h1, h2⟩)]
    exact if_neg h3
  · intro results cat
    rw [foundClasses, foundClasses_foldl_mem]
    simp
  · intro m s
    constructor
    · rw [drawnOverlays]
      simp [hped]
    · rw [foundClasses]
      simp [hped]

/-- C5 witness: the class-insensitivity clauses applied to the concrete
labels of the spec's scenario. -/
theorem C5_label_classification_witness :
    classifyLabel "Traffic Light" = some ("TRAFFIC LIGHT", [255, 230, 0, 200]) ∧
    classifyLabel "BUS" = some ("VEHICLE", [0, 255, 100, 160]) ∧
    classifyLabel "pedestrian" = none :=
  ⟨C5_label_classification.2.2.2.1,
   C5_label_classification.2.1 "BUS" (by decide),
   C5_label_classification.2.2.2.2.1⟩

/-- C6: a failed inference call for a sampled timestamp appends no cache
entry for it and does not abort the scheduler — the visited timestamp
sequence is independent of failures, and the cache has an entry for a
timestamp exactly when that timestamp was sampled and its inference call
succeeded (then carrying exactly that call's results). -/
theorem C6_inference_failure_skip (predict : ℚ → Option (List SegmentedClass))
    (duration : ℚ) :
    analysisCache predict duration =
      (analysisTimestamps duration).filterMap
        (fun s => (predict s).map (fun res => { timestamp := s, odResult := res })) ∧
    (∀ s : ℚ,
      (∃ e ∈ analysisCache predict duration, e.timestamp = s) ↔
        s ∈ analysisTimestamps duration ∧ (predict s).isSome) ∧
    (∀ e ∈ analysisCache predict duration, predict e.timestamp = some e.odResult) := by
  have hi : (0 : ℚ) < ANALYSIS_INTERVAL := by norm_num [ANALYSIS_INTERVAL]
  refine ⟨?_, ?_, ?_⟩
  · rw [analysisCache, analysisTimestamps,
      analysisLoop_eq_filterMap predict _ ANALYSIS_INTERVAL hi _ 0 rfl]
  · intro s
    constructor
    · rintro ⟨e, he, rfl⟩
      have := (mem_analysisCache predict duration e).mp he
      exact ⟨this.1, by rw [this.2]; rfl⟩
    · rintro ⟨hs, hsome⟩
      obtain ⟨res, hres⟩ := Option.isSome_iff_exists.mp hsome
      exact ⟨{ timestamp := s, odResult := res },
        (mem_analysisCache predict duration _).mpr ⟨hs, hres⟩, rfl⟩
  · intro e he
    exact ((mem_analysisCache predict duration e).mp he).2

/-- C6 witness: a predictor that throws exactly at t = 0.2 on a 0.4 s
video: the cache skips 0.2 but still contains 0 and 0.4. -/
theorem C6_inference_failure_skip_witness :
    ((∃ e ∈ analysisCache (fun t => if t = 2/10 then none else some []) (4/10),
        e.timestamp = 2/10) ↔
      (2/10 : ℚ) ∈ analysisTimestamps (4/10) ∧
        ((fun t : ℚ => if t = 2/10 then none else some ([] : List SegmentedClass))
          (2/10)).isSome) ∧
    ((∃ e ∈ analysisCache (fun t => if t = 2/10 then none else some []) (4/10),
        e.timestamp = 4/10) ↔
      (4/10 : ℚ) ∈ analysisTimestamps (4/10) ∧
        ((fun t : ℚ => if t = 2/10 then none else some ([] : List SegmentedClass))
          (4/10)).isSome) :=
  ⟨(C6_inference_failure_skip (fun t => if t = 2/10 then none else some []) (4/10)).2.1 (2/10),
   (C6_inference_failure_skip (fun t => if t = 2/10 then none else some []) (4/10)).2.1 (4/10)⟩

/-- The all-successful predictor used for the C7 analysis below: timestamps
of the produced cache are exactly the sampled timestamps. -/
lemma map_timestamp_analysisCache (predict : ℚ → Option (List SegmentedClass))
    (duration : ℚ) (hall : ∀ s, (predict s).isSome) :
    (analysisCache predict duration).map CachedFrame.timestamp =
      analysisTimestamps duration := by
  have hi : (0 : ℚ) < ANALYSIS_INTERVAL := by norm_num [ANALYSIS_INTERVAL]
  rw [analysisCache, analysisTimestamps,
    analysisLoop_eq_filterMap predict _ ANALYSIS_INTERVAL hi _ 0 rfl]
  generalize sampleTimesFrom (effectiveDuration duration + EPSILON) ANALYSIS_INTERVAL 0 = ts
  induction ts with
  | nil => rfl
  | cons s rest ih =>
      obtain ⟨res, hres⟩ := Option.isSome_iff_exists.mp (hall s)
      rw [List.filterMap_cons, hres]
      simpa using ih

/-- The concrete predictor of the C7 counterexample: inference throws
exactly at the sampled timestamp 0.2 and succeeds elsewhere. -/
def predictGap : ℚ → Option (List SegmentedClass) :=
  fun t => if t = 2/10 then none else some []

/-- The cache of a 0.4 s-video analysis pass under `predictGap`: the entry
at 0.2 is missing, so consecutive entries are 0.4 apart. -/
lemma analysisCache_predictGap :
    analysisCache predictGap (4/10) = [⟨0, []⟩, ⟨4/10, []⟩] := by
  have hi : (0 : ℚ) < ANALYSIS_INTERVAL := by norm_num [ANALYSIS_INTERVAL]
  have hc : (⌊(effectiveDuration (4/10) + EPSILON - 0) / ANALYSIS_INTERVAL⌋ + 1).toNat = 3 := by
    norm_num [effectiveDuration, EPSILON, ANALYSIS_INTERVAL, MAX_DEMO_DURATION]
    omega
  rw [analysisCache, analysisLoop_eq_filterMap predictGap _ ANALYSIS_INTERVAL hi _ 0 rfl,
    sampleTimesFrom_eq_map_range _ _ hi 3 0 hc,
    show List.range 3 = [0, 1, 2] from rfl]
  have h0 : (0 : ℚ) + (0 : ℕ) * ANALYSIS_INTERVAL = 0 := by norm_num
  have h1 : (0 : ℚ) + (1 : ℕ) * ANALYSIS_INTERVAL = 2/10 := by
    norm_num [ANALYSIS_INTERVAL]
  have h2 : (0 : ℚ) + (2 : ℕ) * ANALYSIS_INTERVAL = 4/10 := by
    norm_num [ANALYSIS_INTERVAL]
  rw [List.map_cons, List.map_cons, List.map_cons, List.map_nil, h0, h1, h2]
  rw [List.filterMap_cons, List.filterMap_cons, List.filterMap_cons, List.filterMap_nil]
  rw [show predictGap 0 = some [] from by norm_num [predictGap],
    show predictGap (2/10) = none from by norm_num [predictGap],
    show predictGap (4/10) = some [] from by norm_num [predictGap]]
  rfl

/-- C7 counterexample: the claim's "uniform spacing equal to the sampling
interval after ANY analysis pass" fails for the pass over a 0.4 s video in
which the inference call at 0.2 failed — the surviving entries at 0 and
0.4 are two intervals apart. -/
theorem C7_counterexample :
    ¬ List.Chain' (fun a b : CachedFrame => b.timestamp = a.timestamp + ANALYSIS_INTERVAL)
        (analysisCache predictGap (4/10)) := by
  rw [analysisCache_predictGap]
  intro h
  have := List.chain'_cons.mp h
  norm_num [ANALYSIS_INTERVAL] at this

/-- Structure of the sampled-timestamp list: uniform spacing, strict
ascent, first element 0, last element within epsilon of the effective
duration. -/
lemma analysisTimestamps_spec (duration : ℚ) (hd : 0 ≤ duration) :
    List.Chain' (fun x y : ℚ => y = x + ANALYSIS_INTERVAL) (analysisTimestamps duration) ∧
    List.Chain' (fun x y : ℚ => x < y) (analysisTimestamps duration) ∧
    (analysisTimestamps duration).head? = some 0 ∧
    (∀ L, (analysisTimestamps duration).getLast? = some L →
      effectiveDuration duration - EPSILON < L ∧
        L ≤ effectiveDuration duration + EPSILON) := by
  have hi : (0 : ℚ) < ANALYSIS_INTERVAL := by norm_num [ANALYSIS_INTERVAL]
  have heff : 0 ≤ effectiveDuration duration :=
    le_min hd (by norm_num [MAX_DEMO_DURATION])
  have hbpos : 0 ≤ effectiveDuration duration + EPSILON - 0 := by
    norm_num [EPSILON]
    linarith
  have hF : (0 : ℤ) ≤ ⌊(effectiveDuration duration + EPSILON - 0) / ANALYSIS_INTERVAL⌋ :=
    Int.floor_nonneg.mpr (div_nonneg hbpos hi.le)
  obtain ⟨M, hM, hMF⟩ :
      ∃ M, (⌊(effectiveDuration duration + EPSILON - 0) / ANALYSIS_INTERVAL⌋ + 1).toNat = M + 1 ∧
        (M : ℤ) = ⌊(effectiveDuration duration + EPSILON - 0) / ANALYSIS_INTERVAL⌋ :=
    ⟨(⌊(effectiveDuration duration + EPSILON - 0) / ANALYSIS_INTERVAL⌋).toNat,
      by omega, by omega⟩
  have hts : analysisTimestamps duration =
      (List.range (M + 1)).map (fun k : ℕ => (0 : ℚ) + (k : ℚ) * ANALYSIS_INTERVAL) := by
    rw [analysisTimestamps, sampleTimesFrom_eq_map_range _ _ hi (M + 1) 0 hM]
  refine ⟨?_, ?_, ?_, ?_⟩
  · rw [hts, List.chain'_map, List.chain'_range_succ]
    intro m hm
    push_cast
    ring
  · rw [hts, List.chain'_map, List.chain'_range_succ]
    intro m hm
    push_cast
    have := hi
    nlinarith
  · rw [hts, List.range_succ_eq_map, List.map_cons, List.head?_cons]
    norm_num
  · intro L hL
    rw [hts, List.range_succ, List.map_append, List.map_cons, List.map_nil,
      List.getLast?_concat] at hL
    obtain rfl : (0 : ℚ) + (M : ℚ) * ANALYSIS_INTERVAL = L := Option.some.inj hL
    have hup : (M : ℚ) * ANALYSIS_INTERVAL ≤ effectiveDuration duration + EPSILON := by
      have h1 : ((M : ℤ) : ℚ) ≤ (effectiveDuration duration + EPSILON - 0) / ANALYSIS_INTERVAL := by
        rw [hMF]
        exact Int.floor_le _
      rw [le_div_iff₀ hi] at h1
      push_cast at h1
      linarith
    have hlow : effectiveDuration duration + EPSILON < ((M : ℚ) + 1) * ANALYSIS_INTERVAL := by
      have h2 := Int.lt_floor_add_one
        ((effectiveDuration duration + EPSILON - 0) / ANALYSIS_INTERVAL)
      rw [← hMF] at h2
      rw [div_lt_iff₀ hi] at h2
      push_cast at h2
      linarith
    constructor
    · norm_num [EPSILON, ANALYSIS_INTERVAL] at hup hlow ⊢
      linarith
    · linarith

/-- C7 (amended): after an analysis pass in which every inference call
succeeded, on a video of nonnegative duration, the cache is strictly
ascending with uniform spacing equal to the sampling interval; the first
timestamp is 0 and the last lies within epsilon (0.1 s) of
`effectiveDuration` (it may fall short of it or exceed it by at most
epsilon); every timestamp lies in `[0, effectiveDuration + epsilon]`. -/
theorem C7_cache_ordering (predict : ℚ → Option (List SegmentedClass))
    (duration : ℚ) (hd : 0 ≤ duration) (hall : ∀ s, (predict s).isSome) :
    List.Chain' (fun a b : CachedFrame => b.timestamp = a.timestamp + ANALYSIS_INTERVAL)
      (analysisCache predict duration) ∧
    List.Chain' (fun a b : CachedFrame => a.timestamp < b.timestamp)
      (analysisCache predict duration) ∧
    ((analysisCache predict duration).map CachedFrame.timestamp).head? = some 0 ∧
    (∀ L, ((analysisCache predict duration).map CachedFrame.timestamp).getLast? = some L →
      effectiveDuration duration - EPSILON < L ∧
        L ≤ effectiveDuration duration + EPSILON) ∧
    (∀ e ∈ analysisCache predict duration,
      0 ≤ e.timestamp ∧ e.timestamp ≤ effectiveDuration duration + EPSILON) := by
  have hi : (0 : ℚ) < ANALYSIS_INTERVAL := by norm_num [ANALYSIS_INTERVAL]
  obtain ⟨hc1, hc2, hh, hl⟩ := analysisTimestamps_spec duration hd
  have hmap := map_timestamp_analysisCache predict duration hall
  refine ⟨?_, ?_, ?_, ?_, ?_⟩
  · exact (List.chain'_map CachedFrame.timestamp).mp (by rw [hmap]; exact hc1)
  · exact (List.chain'_map CachedFrame.timestamp).mp (by rw [hmap]; exact hc2)
  · rw [hmap]
    exact hh
  · rw [hmap]
    exact hl
  · intro e he
    have hts := ((mem_analysisCache predict duration e).mp he).1
    obtain ⟨k, hk, hle⟩ := (mem_sampleTimesFrom_zero _ _ hi _).mp hts
    constructor
    · rw [hk]
      positivity
    · exact hle

/-- C7 witness: the amended theorem on a 1 s video with an
everywhere-successful predictor. -/
theorem C7_cache_ordering_witness :
    List.Chain' (fun a b : CachedFrame => b.timestamp = a.timestamp + ANALYSIS_INTERVAL)
      (analysisCache (fun t => some []) 1) ∧
    ((analysisCache (fun t => some []) 1).map CachedFrame.timestamp).head? = some 0 :=
  ⟨(C7_cache_ordering (fun t => some []) 1 (by norm_num) (fun s => rfl)).1,
   (C7_cache_ordering (fun t => some []) 1 (by norm_num) (fun s => rfl)).2.2.1⟩

/-- C8: while playing, a tick at or past the duration cap seeks to 0 and
re-schedules without querying the cache or rendering; a tick below the cap
(e.g. at 14.95 s) proceeds to the lookup and renders its result; hence any
tick that renders happened strictly below the cap. -/
theorem C8_duration_cap (paused ended : Bool) (t : ℚ) (cache : List CachedFrame) :
    (paused = false → ended = false → MAX_DEMO_DURATION ≤ t →
      playbackTick paused ended t cache =
        { stopped := false, seekTo := some 0, queried := false, rendered := none,
          rescheduled := true }) ∧
    (paused = false → ended = false → t < MAX_DEMO_DURATION →
      playbackTick paused ended t cache =
        { stopped := false, seekTo := none, queried := true,
          rendered := findNearest cache t, rescheduled := true }) ∧
    (∀ f, (playbackTick paused ended t cache).rendered = some f →
      t < MAX_DEMO_DURATION) ∧
    (playbackTick false false (1495/100) cache).queried = true ∧
    (playbackTick false false (1495/100) cache).rendered = findNearest cache (1495/100) ∧
    (playbackTick false false 15 cache).seekTo = some 0 ∧
    (playbackTick false false 15 cache).queried = false := by
  refine ⟨?_, ?_, ?_, ?_, ?_, ?_, ?_⟩
  · rintro rfl rfl hle
    rw [playbackTick, if_neg (by simp), if_pos hle]
  · rintro rfl rfl hlt
    rw [playbackTick, if_neg (by simp), if_neg (not_le.mpr hlt)]
  · intro f hf
    rw [playbackTick] at hf
    split_ifs at hf with h1 h2
    all_goals first
      | exact not_le.mp h2
      | simp at hf
  · rw [playbackTick, if_neg (by simp),
      if_neg (by norm_num [MAX_DEMO_DURATION])]
  · rw [playbackTick, if_neg (by simp),
      if_neg (by norm_num [MAX_DEMO_DURATION])]
  · rw [playbackTick, if_neg (by simp), if_pos (by norm_num [MAX_DEMO_DURATION])]
  · rw [playbackTick, if_neg (by simp), if_pos (by norm_num [MAX_DEMO_DURATION])]

/-- C8 witness: the cap branch at t = 15 and the render branch at
t = 14.95 on the empty cache. -/
theorem C8_duration_cap_witness :
    playbackTick false false 15 [] =
      { stopped := false, seekTo := some 0, queried := false, rendered := none,
        rescheduled := true } ∧
    playbackTick false false (1495/100) [] =
      { stopped := false, seekTo := none, queried := true,
        rendered := findNearest [] (1495/100), rescheduled := true } :=
  ⟨(C8_duration_cap false false 15 []).1 rfl rfl (by norm_num [MAX_DEMO_DURATION]),
   (C8_duration_cap false false (1495/100) []).2.1 rfl rfl
     (by norm_num [MAX_DEMO_DURATION])⟩

/-- The number of sampling steps actually performed by the loop. -/
lemma analysisTimestamps_length (duration : ℚ) :
    (analysisTimestamps duration).length =
      (⌊(effectiveDuration duration + EPSILON - 0) / ANALYSIS_INTERVAL⌋ + 1).toNat := by
  rw [analysisTimestamps,
    sampleTimesFrom_eq_map_range _ _ (by norm_num [ANALYSIS_INTERVAL]) _ 0 rfl,
    List.length_map, List.length_range]

/-- C9: after `k` completed sampling steps (1 ≤ k ≤ number of loop steps),
the reported progress is exactly `round(100·k / totalSteps)` with
`totalSteps = ⌈effectiveDuration/interval⌉ + 1` — the `min 100` clamp in
the source never binds — and it lies in `[0, 100]`. -/
theorem C9_progress_reporting (duration : ℚ) (k : ℕ) (hd : 0 ≤ duration)
    (hk1 : 1 ≤ k) (hk2 : k ≤ (analysisTimestamps duration).length) :
    progressAfter (effectiveDuration duration) k =
      round ((100 * (k : ℚ)) / ((totalSteps (effectiveDuration duration) : ℤ) : ℚ)) ∧
    0 ≤ progressAfter (effectiveDuration duration) k ∧
    progressAfter (effectiveDuration duration) k ≤ 100 := by
  have hi : (0 : ℚ) < ANALYSIS_INTERVAL := by norm_num [ANALYSIS_INTERVAL]
  have heff : 0 ≤ effectiveDuration duration :=
    le_min hd (by norm_num [MAX_DEMO_DURATION])
  have hceil : (0 : ℤ) ≤ ⌈effectiveDuration duration / ANALYSIS_INTERVAL⌉ :=
    Int.ceil_nonneg (div_nonneg heff hi.le)
  have hstepspos : (0 : ℚ) < ((totalSteps (effectiveDuration duration) : ℤ) : ℚ) := by
    rw [totalSteps]
    push_cast
    have : ((⌈effectiveDuration duration / ANALYSIS_INTERVAL⌉ : ℤ) : ℚ) ≥ 0 := by
      exact_mod_cast hceil
    linarith
  have harg : (effectiveDuration duration + EPSILON - 0) / ANALYSIS_INTERVAL =
      effectiveDuration duration / ANALYSIS_INTERVAL + 1/2 := by
    rw [EPSILON, ANALYSIS_INTERVAL]
    field_simp
    try ring
  have hfloorle : ⌊(effectiveDuration duration + EPSILON - 0) / ANALYSIS_INTERVAL⌋ ≤
      ⌈effectiveDuration duration / ANALYSIS_INTERVAL⌉ := by
    rw [harg]
    have h3 : effectiveDuration duration / ANALYSIS_INTERVAL ≤
        (⌈effectiveDuration duration / ANALYSIS_INTERVAL⌉ : ℚ) :=
      Int.le_ceil _
    have : effectiveDuration duration / ANALYSIS_INTERVAL + 1/2 <
        (⌈effectiveDuration duration / ANALYSIS_INTERVAL⌉ : ℚ) + 1 := by linarith
    have := Int.floor_lt.mpr (by push_cast; linarith : effectiveDuration duration /
      ANALYSIS_INTERVAL + 1/2 < ((⌈effectiveDuration duration / ANALYSIS_INTERVAL⌉ + 1 : ℤ) : ℚ))
    omega
  have hkQ : (k : ℚ) ≤ ((totalSteps (effectiveDuration duration) : ℤ) : ℚ) := by
    rw [analysisTimestamps_length] at hk2
    have hfl : (0 : ℤ) ≤ ⌊(effectiveDuration duration + EPSILON - 0) / ANALYSIS_INTERVAL⌋ := by
      refine Int.floor_nonneg.mpr (div_nonneg ?_ hi.le)
      norm_num [EPSILON]
      linarith
    have hk3 : (k : ℤ) ≤ totalSteps (effectiveDuration duration) := by
      rw [totalSteps]
      omega
    exact_mod_cast hk3
  have hargle : (k : ℚ) / ((totalSteps (effectiveDuration duration) : ℤ) : ℚ) * 100 ≤ 100 := by
    have hdle : (k : ℚ) / ((totalSteps (effectiveDuration duration) : ℤ) : ℚ) ≤ 1 :=
      (div_le_one hstepspos).mpr hkQ
    linarith
  have hargnn : 0 ≤ (k : ℚ) / ((totalSteps (effectiveDuration duration) : ℤ) : ℚ) * 100 := by
    have : (0 : ℚ) ≤ (k : ℚ) / ((totalSteps (effectiveDuration duration) : ℤ) : ℚ) :=
      div_nonneg (by positivity) hstepspos.le
    linarith
  have hr100 : round ((k : ℚ) / ((totalSteps (effectiveDuration duration) : ℤ) : ℚ) * 100) ≤ 100 := by
    rw [round_eq]
    have := Int.floor_mono (by linarith :
      (k : ℚ) / ((totalSteps (effectiveDuration duration) : ℤ) : ℚ) * 100 + 1/2 ≤ 100 + 1/2)
    have h100 : ⌊(100 : ℚ) + 1/2⌋ = 100 := by norm_num
    omega
  have hr0 : 0 ≤ round ((k : ℚ) / ((totalSteps (effectiveDuration duration) : ℤ) : ℚ) * 100) := by
    rw [round_eq]
    exact Int.le_floor.mpr (by push_cast; linarith)
  have hmin : progressAfter (effectiveDuration duration) k =
      round ((k : ℚ) / ((totalSteps (effectiveDuration duration) : ℤ) : ℚ) * 100) := by
    rw [progressAfter]
    exact min_eq_right hr100
  have hform : (k : ℚ) / ((totalSteps (effectiveDuration duration) : ℤ) : ℚ) * 100 =
      100 * (k : ℚ) / ((totalSteps (effectiveDuration duration) : ℤ) : ℚ) := by
    ring
  refine ⟨?_, ?_, ?_⟩
  · rw [hmin, hform]
  · rw [hmin]
    exact hr0
  · rw [hmin]
    exact hr100

/-- C9 witness: progress after the first completed step of a 1 s video:
`round(100·1/6) = 17`, within bounds. -/
theorem C9_progress_reporting_witness :
    progressAfter (effectiveDuration 1) 1 =
      round ((100 * (1 : ℚ)) / ((totalSteps (effectiveDuration 1) : ℤ) : ℚ)) ∧
    0 ≤ progressAfter (effectiveDuration 1) 1 ∧
    progressAfter (effectiveDuration 1) 1 ≤ 100 :=
  C9_progress_reporting 1 1 (by norm_num) le_rfl
    (by
      rw [analysisTimestamps_length]
      norm_num [effectiveDuration, EPSILON, ANALYSIS_INTERVAL, MAX_DEMO_DURATION])

/-- C10: when the sampling loop finishes, `startAnalysis` marks the
session Complete, seeks the video back to 0 and calls the play toggle; as
the toggle sees `isPlaying = false` (set at the start of the analysis
pass), a resolving `play()` engages playback: the video plays and the
playback loop is scheduled, with no user action. -/
theorem C10_autoplay_after_analysis (s : ControllerState) (hs : s.isPlaying = false) :
    finishAnalysis true s =
      { analysisStatus := .complete, videoTime := 0, isPlaying := true,
        loopScheduled := true } ∧
    (finishAnalysis true s).analysisStatus = .complete ∧
    (finishAnalysis true s).videoTime = 0 ∧
    (finishAnalysis true s).isPlaying = true ∧
    (finishAnalysis true s).loopScheduled = true := by
  obtain ⟨st, vt, ip, ls⟩ := s
  cases hs
  exact ⟨rfl, rfl, rfl, rfl, rfl⟩

/-- C10 witness: the completion sequence from a mid-video, non-playing
analyzing state. -/
theorem C10_autoplay_after_analysis_witness :
    finishAnalysis true
        { analysisStatus := .analyzing, videoTime := 7, isPlaying := false,
          loopScheduled := false } =
      { analysisStatus := .complete, videoTime := 0, isPlaying := true,
        loopScheduled := true } :=
  (C10_autoplay_after_analysis
    { analysisStatus := .analyzing, videoTime := 7, isPlaying := false,
      loopScheduled := false } rfl).1

end SegDemo
